import Mathlib

/-!
# Verification of the thailand-map geospatial data layer

A shallow embedding, in Lean 4, of the data/indexing core of the
`thailand-map` repository (`src/lib/geojson-utils.ts`, `src/lib/types.ts`
second half = the style manager, and the centroid label placement of
`src/components/SimpleMap.tsx`), together with proofs and refutations of
the specification's claims about it.

Modelling conventions:
* JavaScript numbers are modelled as exact rationals (`ℚ`) together with the
  IEEE special values, via the inductive type `JSVal` (`fin q`, `posInf`,
  `negInf`, `nan`).  Divisions that can hit a zero denominator go through
  `jsDiv`, which reproduces JavaScript `x / 0` behaviour (`±Infinity` for a
  nonzero numerator, `NaN` for `0 / 0`).  Float rounding/overflow is not
  modelled: arithmetic on finite values is exact.
* JavaScript `Map` objects keyed by the closed 5-value `AdminLevel` union are
  modelled as functions `AdminLevel → Option _`; `Map.size` becomes the count
  of levels bound to `some`.  The insertion-ordered search-index `Map` is
  modelled as an association list in insertion order.
* Leaflet behaviour used by the label-placement code is modelled where
  observable: `L.latLng(lat, lng)` throws exactly when a coordinate is `NaN`
  (`jsLatLng` returns `none`), and `layer.getBounds().getCenter()` is the
  per-axis midpoint of the coordinate bounds.
-/

/-- JavaScript number values: a finite (exactly represented) rational, the two
infinities, or `NaN`. -/
inductive JSVal where
  | fin (q : ℚ)
  | posInf
  | negInf
  | nan
deriving DecidableEq, Repr

/-- JavaScript division `x / d` of finite operands: exact when `d ≠ 0`;
`±Infinity` or `NaN` when `d = 0`, following IEEE rules with `d = +0`. -/
def jsDiv (x d : ℚ) : JSVal :=
  if d = 0 then
    if 0 < x then .posInf else if x < 0 then .negInf else .nan
  else .fin (x / d)

/-- JavaScript addition on number values (`NaN` is absorbing;
`Infinity + -Infinity = NaN`). -/
def jsAdd : JSVal → JSVal → JSVal
  | .nan, _ => .nan
  | _, .nan => .nan
  | .fin a, .fin b => .fin (a + b)
  | .fin _, .posInf => .posInf
  | .fin _, .negInf => .negInf
  | .posInf, .fin _ => .posInf
  | .negInf, .fin _ => .negInf
  | .posInf, .posInf => .posInf
  | .negInf, .negInf => .negInf
  | .posInf, .negInf => .nan
  | .negInf, .posInf => .nan

/-- JavaScript division of a number value by the finite constant 2. -/
def jsHalf : JSVal → JSVal
  | .fin q => .fin (q / 2)
  | .posInf => .posInf
  | .negInf => .negInf
  | .nan => .nan

/-- The JavaScript `<=` comparison on number values: any comparison with
`NaN` is false. -/
def jsLe : JSVal → JSVal → Bool
  | .nan, _ => false
  | _, .nan => false
  | .fin a, .fin b => a ≤ b
  | .negInf, _ => true
  | _, .posInf => true
  | .posInf, _ => false
  | .fin _, .negInf => false

/-- `Math.min(...l)` over finite values: `+Infinity` for the empty spread. -/
def jsMinList (l : List ℚ) : JSVal :=
  match l with
  | [] => .posInf
  | x :: xs => .fin (xs.foldl min x)

/-- `Math.max(...l)` over finite values: `-Infinity` for the empty spread. -/
def jsMaxList (l : List ℚ) : JSVal :=
  match l with
  | [] => .negInf
  | x :: xs => .fin (xs.foldl max x)

/-- Whether a number value is finite (neither infinite nor `NaN`). -/
def JSVal.isFinite : JSVal → Bool
  | .fin _ => true
  | _ => false

/-- JavaScript division on number values (`NaN` is absorbing;
`±Infinity / d` keeps or flips its sign with the sign of a finite `d`, a zero
`d` counting as `+0`; `x / ±Infinity = 0`; `Infinity / Infinity = NaN`). -/
def jsDivV : JSVal → JSVal → JSVal
  | .nan, _ => .nan
  | _, .nan => .nan
  | .fin x, .fin d => jsDiv x d
  | .posInf, .fin d => if d < 0 then .negInf else .posInf
  | .negInf, .fin d => if d < 0 then .posInf else .negInf
  | .fin _, .posInf => .fin 0
  | .fin _, .negInf => .fin 0
  | .posInf, .posInf => .nan
  | .posInf, .negInf => .nan
  | .negInf, .posInf => .nan
  | .negInf, .negInf => .nan

/-- Binary `Math.min` on number values: `NaN` is contagious, `-Infinity`
absorbs, `+Infinity` is the identity. -/
def jsMin2 : JSVal → JSVal → JSVal
  | .nan, _ => .nan
  | _, .nan => .nan
  | .fin a, .fin b => .fin (min a b)
  | .negInf, _ => .negInf
  | _, .negInf => .negInf
  | .posInf, y => y
  | x, .posInf => x

/-- Binary `Math.max` on number values: `NaN` is contagious, `+Infinity`
absorbs, `-Infinity` is the identity. -/
def jsMax2 : JSVal → JSVal → JSVal
  | .nan, _ => .nan
  | _, .nan => .nan
  | .fin a, .fin b => .fin (max a b)
  | .posInf, _ => .posInf
  | _, .posInf => .posInf
  | .negInf, y => y
  | x, .negInf => x

/-- `Math.min(...l)` over arbitrary number values (identity `+Infinity` for
the empty spread). -/
def jsMinListV (l : List JSVal) : JSVal := l.foldl jsMin2 .posInf

/-- `Math.max(...l)` over arbitrary number values (identity `-Infinity` for
the empty spread). -/
def jsMaxListV (l : List JSVal) : JSVal := l.foldl jsMax2 .negInf

/-!
## Geometry model

`geometry.coordinates` of a GeoJSON feature is an arbitrarily nested array of
numbers; `CoordTree` is that JSON array structure.  Polygon / MultiPolygon
features additionally carry their typed ring structure, which the label
placement code of `SimpleMap.tsx` accesses positionally.
-/

/-- A JSON value appearing under `geometry.coordinates`: a number or an array
of such values. -/
inductive CoordTree where
  | num (q : ℚ)
  | arr (l : List CoordTree)

mutual

/-- `GeoJSONDataManager.extractCoordinates` (`src/lib/geojson-utils.ts`):
recursive `flatten` that pushes every array of exactly two numbers as a
`[lng, lat]` pair and recurses (via `forEach`) into every other array. -/
def flattenCoords : CoordTree → List (ℚ × ℚ)
  | .num _ => []
  | .arr [.num a, .num b] => [(a, b)]
  | .arr l => flattenEach l

/-- The `arr.forEach(flatten)` part of `extractCoordinates`: flatten each
element of an array in order. -/
def flattenEach : List CoordTree → List (ℚ × ℚ)
  | [] => []
  | c :: cs => flattenCoords c ++ flattenEach cs

end

/-- A polygon ring: the listed sequence of `[lng, lat]` vertex pairs. -/
abbrev GRing := List (ℚ × ℚ)

/-- A polygon: a list of rings, the first being the outer boundary. -/
abbrev GPoly := List GRing

/-- The geometry of a feature, as the label-placement code distinguishes it:
`Polygon`, `MultiPolygon`, or any other geometry type (whose coordinates are
kept as the raw nested array). -/
inductive Geometry where
  | polygon (rings : GPoly)
  | multiPolygon (polys : List GPoly)
  | other (coords : CoordTree)

/-- The raw `coordinates` JSON array of a geometry (the typed ring structure
of a Polygon/MultiPolygon re-expressed as nested arrays). -/
def Geometry.tree : Geometry → CoordTree
  | .polygon rings =>
      .arr (rings.map fun r => .arr (r.map fun p => .arr [.num p.1, .num p.2]))
  | .multiPolygon polys =>
      .arr (polys.map fun rings =>
        .arr (rings.map fun r => .arr (r.map fun p => .arr [.num p.1, .num p.2])))
  | .other t => t

/-- All `[lng, lat]` pairs of a geometry, as `extractCoordinates` flattens
them. -/
def Geometry.coords (g : Geometry) : List (ℚ × ℚ) := flattenCoords g.tree

/-- `GeoJSONDataManager.getFeatureBounds`: `[[minLat, minLng], [maxLat,
maxLng]]` over all flattened coordinate pairs (`Math.min`/`Math.max` of an
empty spread give `±Infinity`). -/
def getFeatureBounds (g : Geometry) : (JSVal × JSVal) × (JSVal × JSVal) :=
  let coords := flattenCoords g.tree
  let lats := coords.map (·.2)
  let lngs := coords.map (·.1)
  ((jsMinList lats, jsMinList lngs), (jsMaxList lats, jsMaxList lngs))

/-- `GeoJSONDataManager.getFeatureCenter`: the per-axis midpoint
`(bounds[0] + bounds[1]) / 2` of `getFeatureBounds`. -/
def getFeatureCenter (g : Geometry) : JSVal × JSVal :=
  let b := getFeatureBounds g
  (jsHalf (jsAdd b.1.1 b.2.1), jsHalf (jsAdd b.1.2 b.2.2))

-- sanity: a single pair
example : flattenCoords (.arr [.num 3, .num 7]) = [(3, 7)] := rfl
-- sanity: empty coordinates flatten to nothing
example : flattenCoords (.arr []) = [] := rfl

/-!
## Label-placement centroid (`SimpleMap.tsx`, `onEachFeature`)

The Polygon branch iterates `i = 0 .. coordinates.length - 2` over the outer
ring, accumulating the shoelace terms, and finally divides by `6 * area`; the
result is passed to `L.latLng(centroidLat, centroidLng)`, which throws exactly
when a coordinate is `NaN`, landing in the `catch` that falls back to
`layer.getBounds().getCenter()`.
-/

/-- The accumulated shoelace sums of the centroid loop: for each consecutive
edge `(x0,y0)-(x1,y1)` of the listed ring (no wrap-around edge is added),
`a = x0*y1 - x1*y0` is accumulated into `area`, `(x0+x1)*a` into
`centroidLng`, and `(y0+y1)*a` into `centroidLat`. -/
def shoelaceSums (ring : GRing) : ℚ × ℚ × ℚ :=
  (ring.zip ring.tail).foldl
    (fun acc e =>
      let a := e.1.1 * e.2.2 - e.2.1 * e.1.2
      (acc.1 + a, acc.2.1 + (e.1.1 + e.2.1) * a, acc.2.2 + (e.1.2 + e.2.2) * a))
    (0, 0, 0)

/-- The centroid the Polygon branch computes for a ring, as a
`(centroidLat, centroidLng)` pair of JavaScript numbers: the accumulated sums
divided by `6 * (0.5 * areaSum)`. -/
def polygonCentroidRaw (ring : GRing) : JSVal × JSVal :=
  let s := shoelaceSums ring
  let area := s.1 * (1 / 2)
  (jsDiv s.2.2 (6 * area), jsDiv s.2.1 (6 * area))

/-- `L.latLng(lat, lng)`: Leaflet throws (`none`) exactly when a coordinate is
`NaN`; infinite coordinates are accepted. -/
def jsLatLng (p : JSVal × JSVal) : Option (JSVal × JSVal) :=
  if p.1 = .nan ∨ p.2 = .nan then none else some p

/-- The approximate-area computation of the MultiPolygon selection loop:
`Math.abs(coords.reduce((acc, curr, i) => acc + (curr[0]*next[1] -
next[0]*curr[1]), 0)) / 2` with `next = coords[(i+1) % coords.length]` — a
cyclic shoelace sum (unlike the centroid loop, this one wraps around). -/
def cyclicShoeArea (ring : GRing) : ℚ :=
  |(ring.zip (ring.drop 1 ++ ring.take 1)).foldl
      (fun acc e => acc + (e.1.1 * e.2.2 - e.2.1 * e.1.2)) 0| / 2

/-- One step of the MultiPolygon selection loop: replace the current best
`(largestPolygon, maxArea)` when this polygon's outer-ring area is strictly
larger. -/
def selectStep (acc : GPoly × ℚ) (p : GPoly) : GPoly × ℚ :=
  let a := cyclicShoeArea (p.headD [])
  if a > acc.2 then (p, a) else acc

/-- The polygon the MultiPolygon branch selects: fold of `selectStep` over all
sub-polygons, starting from `(polygons[0], 0)`. -/
def multiSelected (polys : List GPoly) : GPoly :=
  (polys.foldl selectStep (polys.headD [], 0)).1

/-- The MultiPolygon branch of the centroid computation: `none` when the code
throws (no sub-polygon at index 0, a sub-polygon with no ring — reading
`polygon[0]` of `undefined` — or a `NaN` centroid coordinate reaching
`L.latLng`); otherwise the selected polygon's outer-ring centroid. -/
def multiCentroidTry (polys : List GPoly) : Option (JSVal × JSVal) :=
  match polys with
  | [] => none
  | _ :: _ =>
    if polys.all (fun p => ¬ p.isEmpty) then
      jsLatLng (polygonCentroidRaw ((multiSelected polys).headD []))
    else none

/-- The whole `try` block of the label-position computation: `none` means an
exception was thrown (caught by the surrounding `catch`). -/
def centroidTry : Geometry → Option (JSVal × JSVal)
  | .polygon rings =>
    match rings with
    | [] => none
    | r :: _ => jsLatLng (polygonCentroidRaw r)
  | .multiPolygon polys => multiCentroidTry polys
  | .other t => some (getFeatureCenter (.other t))

/-- `layer.getBounds().getCenter()` — Leaflet's bounding-box midpoint of the
feature's coordinates, per axis: the same computation as
`getFeatureCenter`. -/
def bboxCenter (g : Geometry) : JSVal × JSVal := getFeatureCenter g

/-- The label position `onEachFeature` settles on: the computed centroid, or
the bounding-box center when the `try` block threw. -/
def labelPosition (g : Geometry) : JSVal × JSVal :=
  match centroidTry g with
  | some p => p
  | none => bboxCenter g

-- sanity: unit square (explicitly closed), centroid (1/2, 1/2)
example :
    polygonCentroidRaw [(0, 0), (1, 0), (1, 1), (0, 1), (0, 0)] =
      (.fin (1 / 2), .fin (1 / 2)) := by
  simp only [polygonCentroidRaw, shoelaceSums, jsDiv, List.zip, List.tail,
    List.foldl, List.zipWith]
  norm_num
-- sanity: empty ring gives NaN coordinates, hence fallback
example :
    labelPosition (.polygon [[]]) = bboxCenter (.polygon [[]]) := by
  simp [labelPosition, centroidTry, polygonCentroidRaw, shoelaceSums, jsDiv,
    jsLatLng]


/-!
## Property values and numeric coercion

`types.ts` types property-bag values as `string | number | boolean | null |
undefined`.  Every numeric use of `area_sqkm` / `perimeter` goes through the
JavaScript idiom `Number(x) || 0`.  A string value is modelled together with
the full outcome of its `Number()` parse, which can be any number value: a
finite value (`"5"`), `±Infinity` (`"Infinity"`, `"-Infinity"`, `"1e999"`),
or `NaN` (`"abc"`). -/

/-- A property value: JSON-sourced `string | number | boolean | null`, or the
`undefined` read of an absent key.  `pstr s parsed` carries the string with
the number value `Number(s)` evaluates to. -/
inductive PropVal where
  | pnum (q : ℚ)
  | pstr (s : String) (parsed : JSVal)
  | pbool (b : Bool)
  | pnull
  | pabsent
deriving DecidableEq, Repr

/-- The JavaScript `Number(x)` coercion: numbers unchanged, strings by their
numeric parse (finite, `±Infinity` or `NaN`), `true ↦ 1`, `false ↦ 0`,
`null ↦ 0`, `undefined ↦ NaN`. -/
def jsNumber : PropVal → JSVal
  | .pnum q => .fin q
  | .pstr _ parsed => parsed
  | .pbool b => .fin (if b then 1 else 0)
  | .pnull => .fin 0
  | .pabsent => .nan

/-- The `|| 0` half of `Number(x) || 0`: the falsy number values `NaN` and `0`
become `0` (`0 || 0 = 0`, with no observable change); everything else —
including `±Infinity`, which is truthy — is kept. -/
def orZero : JSVal → JSVal
  | .nan => .fin 0
  | .fin q => .fin q
  | .posInf => .posInf
  | .negInf => .negInf

/-!
## Data manager (`GeoJSONDataManager`)
-/

/-- The closed 5-value `AdminLevel` union of `types.ts`. -/
inductive AdminLevel where
  | provinces
  | districts
  | subdistricts
  | region_royin
  | region_nesdb
deriving DecidableEq, Repr

/-- The string an `AdminLevel` value is at runtime (used in template
literals). -/
def AdminLevel.str : AdminLevel → String
  | .provinces => "provinces"
  | .districts => "districts"
  | .subdistricts => "subdistricts"
  | .region_royin => "region_royin"
  | .region_nesdb => "region_nesdb"

/-- The `levels` array of `loadGeoJSONData` — also an enumeration of every
`AdminLevel` value. -/
def allLevels : List AdminLevel :=
  [.provinces, .districts, .subdistricts, .region_royin, .region_nesdb]

/-- A feature: its property bag, the `JSON.stringify` serialization of that
bag (carried as data, since search de-duplication keys on it), and its
geometry. -/
structure GeoFeature where
  properties : String → PropVal
  propsJson : String
  geometry : Geometry

/-- A feature collection (only the `features` array is ever read). -/
structure FeatureCollection where
  features : List GeoFeature

/-- The mutable state of a `GeoJSONDataManager`: the `data` map keyed by the
closed `AdminLevel` union. -/
structure DMState where
  data : AdminLevel → Option FeatureCollection

/-- A freshly constructed manager: `new Map()`. -/
def emptyDM : DMState := ⟨fun _ => none⟩

/-- `loadGeoJSONData`, given the outcome of each level's fetch+parse: every
successful level is written into the `data` map (each promise runs to
completion independently); the joint `Promise.all` resolves only when all
five succeed, and otherwise rejects with a failing level's error. -/
def loadGeoJSONData (st : DMState)
    (fetches : AdminLevel → Except String FeatureCollection) :
    DMState × Except String Unit :=
  (⟨fun l =>
      match fetches l with
      | .ok d => some d
      | .error _ => st.data l⟩,
   match allLevels.findSome?
       (fun l => match fetches l with | .error e => some e | .ok _ => none) with
   | some e => .error e
   | none => .ok ())

/-- `getData(level)`: the collection, or `null`. -/
def getData (st : DMState) (l : AdminLevel) : Option FeatureCollection :=
  st.data l

/-- The number of distinct levels present in the `data` map (`this.data.size`;
only `AdminLevel` keys can ever be inserted). -/
def loadedLevelCount (st : DMState) : ℕ :=
  (allLevels.filter (fun l => (st.data l).isSome)).length

/-- `isDataLoaded()`: `this.data.size === 5`. -/
def isDataLoaded (st : DMState) : Bool :=
  loadedLevelCount st = 5

/-- The `areas` array of `getStatistics` and `updateAreaRange`:
`features.map(f => Number(f.properties.area_sqkm) || 0)` — JavaScript number
values, since `Number()` of a string can be `±Infinity`. -/
def statAreas (fs : List GeoFeature) : List JSVal :=
  fs.map fun f => orZero (jsNumber (f.properties "area_sqkm"))

/-- The result record of `getStatistics`; `totalArea` and `averageArea` are
JavaScript number values (the sum can hit `Infinity + -Infinity = NaN`, and
the division `0 / 0 = NaN`). -/
structure Statistics where
  count : ℕ
  totalArea : JSVal
  averageArea : JSVal
deriving DecidableEq, Repr

/-- `getStatistics(level)`: zeros when the level is absent from the map;
otherwise count, reduce-sum of the coerced areas, and
`totalArea / features.length` as a JavaScript division. -/
def getStatistics (st : DMState) (l : AdminLevel) : Statistics :=
  match st.data l with
  | none => ⟨0, .fin 0, .fin 0⟩
  | some coll =>
    let totalArea := (statAreas coll.features).foldl jsAdd (.fin 0)
    ⟨coll.features.length, totalArea,
      jsDivV totalArea (.fin coll.features.length)⟩

/-!
## Style manager pieces (`types.ts`, second half)
-/

/-- `MapStyleManager.updateAreaRange`: `Math.min`/`Math.max` over the coerced
`area_sqkm` values (an empty feature list yields `+Infinity`/`-Infinity`). -/
def updateAreaRange (fs : List GeoFeature) : JSVal × JSVal :=
  let areas := statAreas fs
  (jsMinListV areas, jsMaxListV areas)

/-- The `area` field of `createTooltipData`: `Number(props.area_sqkm) || 0`,
as the JavaScript number value it evaluates to. -/
def tooltipArea (f : GeoFeature) : JSVal :=
  orZero (jsNumber (f.properties "area_sqkm"))

/-- The `perimeter` field of `createTooltipData`: `Number(props.perimeter)
|| 0`. -/
def tooltipPerimeter (f : GeoFeature) : JSVal :=
  orZero (jsNumber (f.properties "perimeter"))

/-- The `hsl(hue, 70%, 50%)` string built by `generateAreaGradientColor`. -/
def hslString (hue : ℚ) : String :=
  "hsl(" ++ toString hue ++ ", 70%, 50%)"

/-- `generateAreaGradientColor(area, minArea, maxArea)`
(`src/lib/geojson-utils.ts`): the fixed default `'#3498db'` when
`maxArea === minArea`, otherwise a hue interpolated from the normalized
area. -/
def generateAreaGradientColor (area minArea maxArea : ℚ) : String :=
  if maxArea = minArea then "#3498db"
  else
    let normalized := (area - minArea) / (maxArea - minArea)
    let hue := 240 - normalized * 120
    hslString hue

/-!
## Search (`GeoJSONDataManager.search`)

The search index `Map<string, SearchResult[]>` is modelled as an association
list in insertion order (JavaScript `Map` iteration order).  `search` makes an
exact-bucket pass, then — only when still short of `limit` — a substring pass,
de-duplicating throughout on the key `` `${level}-${JSON.stringify(
feature.properties)}` `` and finally slicing to `limit`.
-/

/-- One entry of a term's bucket: `{feature, level, displayName}`. -/
structure SearchResult where
  feature : GeoFeature
  level : AdminLevel
  displayName : String

/-- The search index: normalized term → bucket, in insertion order. -/
abbrev SearchIndex := List (String × List SearchResult)

/-- The de-duplication key of `search`:
`` `${result.level}-${JSON.stringify(result.feature.properties)}` ``. -/
def dedupKey (r : SearchResult) : String :=
  r.level.str ++ "-" ++ r.feature.propsJson

/-- `normalizeSearchTerm`: `toLowerCase().trim()`. -/
def normalizeSearchTerm (t : String) : String := t.toLower.trim

/-- Character-list version of JavaScript `String.prototype.startsWith`. -/
def isPrefB : List Char → List Char → Bool
  | [], _ => true
  | _ :: _, [] => false
  | a :: as, b :: bs => a = b && isPrefB as bs

/-- Character-list version of JavaScript `String.prototype.includes`:
`sub` occurs contiguously in the list. -/
def isInfB (sub : List Char) : List Char → Bool
  | [] => sub.isEmpty
  | c :: rest => isPrefB sub (c :: rest) || isInfB sub rest

/-- JavaScript `term.includes(sub)`. -/
def strIncludes (term sub : String) : Bool := isInfB sub.toList term.toList

/-- The accumulator of the two search passes: the `results` array and the
`seen` key set (modelled as the list of keys in insertion order). -/
abbrev SState := List SearchResult × List String

/-- The push of the exact pass: append the result and mark its key seen,
unless the key is already seen (`seen.has(key)`).  (No limit check in this
pass.) -/
def pushUnseen (st : SState) (r : SearchResult) : SState :=
  if dedupKey r ∈ st.2 then st
  else (st.1 ++ [r], st.2 ++ [dedupKey r])

/-- The push of the substring pass: additionally requires
`results.length < limit`; a result skipped for the limit is not marked seen
either. -/
def pushUnseenLim (limit : ℕ) (st : SState) (r : SearchResult) : SState :=
  if dedupKey r ∉ st.2 ∧ st.1.length < limit then
    (st.1 ++ [r], st.2 ++ [dedupKey r])
  else st

/-- A pass over the whole index (a `for..of` over `searchIndex.entries()`):
for each entry whose term satisfies `p`, push every result of its bucket in
order. -/
def indexPass (p : String → Bool) (push : SState → SearchResult → SState) :
    SState → SearchIndex → SState
  | st, [] => st
  | st, e :: idx =>
    indexPass p push (if p e.1 then e.2.foldl push st else st) idx

/-- `GeoJSONDataManager.search(query, limit = 20)`. -/
def search (idx : SearchIndex) (query : String) (limit : ℕ := 20) :
    List SearchResult :=
  if query.trim = "" then []
  else
    let nq := normalizeSearchTerm query
    let st1 := indexPass (fun t => t = nq) pushUnseen ([], []) idx
    let st2 :=
      if st1.1.length < limit then
        indexPass (fun t => strIncludes t nq && t ≠ nq) (pushUnseenLim limit)
          st1 idx
      else st1
    st2.1.take limit

/-!
### Specification-side description of `search` (for claim C1)

The claim describes the result as: all exact-bucket matches (in index order,
de-duplicated), then — only if the exact pass fell short of `limit` — the
partial matches (in index order, de-duplicated against everything before),
the whole truncated to `limit`.  `specDedup` and `searchSpec` transcribe that
description; C1 is settled by proving `search = searchSpec`.
-/

/-- Keep the first occurrence of each key not already in `seen`. -/
def specDedup (seen : List String) : List SearchResult → List SearchResult
  | [] => []
  | r :: rs =>
    if dedupKey r ∈ seen then specDedup seen rs
    else r :: specDedup (dedupKey r :: seen) rs

/-- The concatenated buckets of all index entries whose term satisfies `p`,
in index order. -/
def matchingBuckets (p : String → Bool) (idx : SearchIndex) :
    List SearchResult :=
  (idx.filter (fun e => p e.1)).flatMap (·.2)

/-- The claim's description of `search`: de-duplicated exact matches first;
partial matches appended only when the exact pass produced fewer than
`limit` results; truncation to `limit`. -/
def searchSpec (idx : SearchIndex) (query : String) (limit : ℕ := 20) :
    List SearchResult :=
  if query.trim = "" then []
  else
    let nq := normalizeSearchTerm query
    let exact := specDedup [] (matchingBuckets (fun t => t = nq) idx)
    let res :=
      if exact.length < limit then
        exact ++ specDedup (exact.map dedupKey)
          (matchingBuckets (fun t => strIncludes t nq && t ≠ nq) idx)
      else exact
    res.take limit

section SearchLemmas

/-- Fold fusion: a guarded pass over the index is the fold of the push over
the concatenated matching buckets. -/
lemma indexPass_eq_foldl (p : String → Bool)
    (push : SState → SearchResult → SState) :
    ∀ (idx : SearchIndex) (st : SState),
      indexPass p push st idx = (matchingBuckets p idx).foldl push st := by
  intro idx
  induction idx with
  | nil => intro st; rfl
  | cons e idx ih =>
    intro st
    cases hp : p e.1
    · have hmb : matchingBuckets p (e :: idx) = matchingBuckets p idx := by
        simp [matchingBuckets, List.filter_cons, hp]
      rw [indexPass, hp, if_neg (by simp), hmb]
      exact ih st
    · have hmb : matchingBuckets p (e :: idx) = e.2 ++ matchingBuckets p idx := by
        simp [matchingBuckets, List.filter_cons, hp]
      rw [indexPass, hp, if_pos rfl, hmb, List.foldl_append]
      exact ih _

/-- `specDedup` only depends on the membership of `seen`. -/
lemma specDedup_congr :
    ∀ (l : List SearchResult) (s₁ s₂ : List String),
      (∀ k, k ∈ s₁ ↔ k ∈ s₂) → specDedup s₁ l = specDedup s₂ l := by
  intro l
  induction l with
  | nil => intro _ _ _; rfl
  | cons r rs ih =>
    intro s₁ s₂ h
    by_cases hk : dedupKey r ∈ s₁
    · rw [specDedup, if_pos hk, specDedup, if_pos ((h _).1 hk)]
      exact ih _ _ h
    · rw [specDedup, if_neg hk, specDedup,
        if_neg (fun hc => hk ((h _).2 hc))]
      refine congrArg _ (ih _ _ ?_)
      intro k
      simp only [List.mem_cons]
      exact or_congr Iff.rfl (h k)

/-- Characterization of the exact-pass fold: results are appended after
de-duplication against `seen`, and `seen` grows by exactly the appended
keys. -/
lemma foldl_pushUnseen :
    ∀ (l : List SearchResult) (st : SState),
      l.foldl pushUnseen st =
        (st.1 ++ specDedup st.2 l,
         st.2 ++ (specDedup st.2 l).map dedupKey) := by
  intro l
  induction l with
  | nil => intro st; simp [specDedup]
  | cons r rs ih =>
    intro st
    by_cases hk : dedupKey r ∈ st.2
    · rw [List.foldl_cons, pushUnseen, if_pos hk, specDedup, if_pos hk]
      exact ih st
    · rw [List.foldl_cons, pushUnseen, if_neg hk, specDedup, if_neg hk]
      rw [ih]
      have hmem : ∀ k, k ∈ st.2 ++ [dedupKey r] ↔ k ∈ dedupKey r :: st.2 := by
        intro k; simp [List.mem_append, or_comm]
      rw [specDedup_congr rs _ _ hmem]
      simp [List.append_assoc]

/-- Below the limit, the limited push agrees with the unlimited one. -/
lemma pushUnseenLim_eq_pushUnseen (limit : ℕ) (st : SState) (r : SearchResult)
    (h : st.1.length < limit) :
    pushUnseenLim limit st r = pushUnseen st r := by
  by_cases hk : dedupKey r ∈ st.2
  · simp [pushUnseenLim, pushUnseen, hk, h]
  · simp [pushUnseenLim, pushUnseen, hk, h]

/-- At the limit, the limited push is inert. -/
lemma foldl_pushUnseenLim_frozen (limit : ℕ) :
    ∀ (l : List SearchResult) (st : SState), ¬ st.1.length < limit →
      l.foldl (pushUnseenLim limit) st = st := by
  intro l
  induction l with
  | nil => intro st _; rfl
  | cons r rs ih =>
    intro st h
    have : pushUnseenLim limit st r = st := by
      simp [pushUnseenLim, h]
    rw [List.foldl_cons, this]
    exact ih st h

/-- The limited and unlimited substring passes agree up to truncation at the
limit. -/
lemma foldl_lim_take (limit : ℕ) :
    ∀ (l : List SearchResult) (st : SState), st.1.length ≤ limit →
      ((l.foldl (pushUnseenLim limit) st).1).take limit =
        ((l.foldl pushUnseen st).1).take limit := by
  intro l
  induction l with
  | nil => intro st _; rfl
  | cons r rs ih =>
    intro st hle
    by_cases hlt : st.1.length < limit
    · rw [List.foldl_cons, List.foldl_cons,
        pushUnseenLim_eq_pushUnseen limit st r hlt]
      refine ih _ ?_
      by_cases hk : dedupKey r ∈ st.2
      · simp [pushUnseen, hk]; omega
      · simp [pushUnseen, hk]; omega
    · have heq : st.1.length = limit := le_antisymm hle (not_lt.mp hlt)
      rw [foldl_pushUnseenLim_frozen limit (r :: rs) st hlt]
      rw [foldl_pushUnseen]
      rw [List.take_append_of_le_length (le_of_eq heq.symm)]

/-- Keys produced by `specDedup` are distinct and avoid the incoming `seen`
set. -/
lemma specDedup_keys_nodup :
    ∀ (l : List SearchResult) (seen : List String),
      ((specDedup seen l).map dedupKey).Nodup ∧
        ∀ k ∈ (specDedup seen l).map dedupKey, k ∉ seen := by
  intro l
  induction l with
  | nil => intro seen; simp [specDedup]
  | cons r rs ih =>
    intro seen
    by_cases hk : dedupKey r ∈ seen
    · rw [specDedup, if_pos hk]; exact ih seen
    · rw [specDedup, if_neg hk]
      obtain ⟨hnd, hout⟩ := ih (dedupKey r :: seen)
      refine ⟨?_, ?_⟩
      · simp only [List.map_cons, List.nodup_cons]
        exact ⟨fun hc => (hout _ hc) (List.mem_cons_self _ _), hnd⟩
      · intro k hkmem
        simp only [List.map_cons, List.mem_cons] at hkmem
        rcases hkmem with rfl | hkmem
        · exact hk
        · exact fun hs => (hout _ hkmem) (List.mem_cons_of_mem _ hs)

/-- The search result of the code agrees with the claim's description. -/
lemma search_eq_searchSpec (idx : SearchIndex) (query : String) (limit : ℕ) :
    search idx query limit = searchSpec idx query limit := by
  simp only [search, searchSpec]
  by_cases hq : query.trim = ""
  · simp [hq]
  · rw [if_neg hq, if_neg hq]
    have hst1 :
        indexPass (fun t => t = normalizeSearchTerm query) pushUnseen
          ([], []) idx =
        (specDedup [] (matchingBuckets
            (fun t => t = normalizeSearchTerm query) idx),
         (specDedup [] (matchingBuckets
            (fun t => t = normalizeSearchTerm query) idx)).map dedupKey) := by
      rw [indexPass_eq_foldl, foldl_pushUnseen]
      simp
    rw [hst1]
    set Ex := specDedup [] (matchingBuckets
      (fun t => t = normalizeSearchTerm query) idx) with hEx
    by_cases hlt : Ex.length < limit
    · rw [if_pos hlt, if_pos hlt]
      rw [indexPass_eq_foldl, foldl_lim_take limit _ _ (le_of_lt hlt),
        foldl_pushUnseen]
    · rw [if_neg hlt, if_neg hlt]

end SearchLemmas

/-- C1. For every query string and limit, `search(query, limit)` returns all
exact-bucket matches first (in index-insertion order), then, only if the
exact pass produced fewer than `limit` results, partial matches whose indexed
term contains the normalized query as a substring and is not equal to it (in
index iteration order); each feature, identified by the key
`level + serialized properties`, appears at most once in the combined result,
and the result is truncated to at most `limit` entries (`limit` defaulting to
20).  Formally: `search` equals the transcription `searchSpec` of that
description, its result keys are pairwise distinct, its length is at most
`limit`, and the default limit is 20. -/
theorem search_correct (idx : SearchIndex) (query : String) (limit : ℕ) :
    search idx query limit = searchSpec idx query limit ∧
    ((search idx query limit).map dedupKey).Nodup ∧
    (search idx query limit).length ≤ limit ∧
    search idx query = search idx query 20 := by
  refine ⟨search_eq_searchSpec idx query limit, ?_, ?_, rfl⟩
  · rw [search_eq_searchSpec idx query limit]
    simp only [searchSpec]
    by_cases hq : query.trim = ""
    · simp [hq]
    · rw [if_neg hq]
      have hnd :
          ((if (specDedup [] (matchingBuckets
              (fun t => t = normalizeSearchTerm query) idx)).length < limit
            then
              specDedup [] (matchingBuckets
                (fun t => t = normalizeSearchTerm query) idx) ++
                specDedup ((specDedup [] (matchingBuckets
                  (fun t => t = normalizeSearchTerm query) idx)).map dedupKey)
                  (matchingBuckets (fun t =>
                    strIncludes t (normalizeSearchTerm query) &&
                      t ≠ normalizeSearchTerm query) idx)
            else
              specDedup [] (matchingBuckets
                (fun t => t = normalizeSearchTerm query) idx)).map
            dedupKey).Nodup := by
        split
        · rw [List.map_append, List.nodup_append]
          refine ⟨(specDedup_keys_nodup _ []).1,
            (specDedup_keys_nodup _ _).1, ?_⟩
          intro k hk1 hk2
          exact (specDedup_keys_nodup _ _).2 k hk2 hk1
        · exact (specDedup_keys_nodup _ []).1
      rw [List.map_take]
      exact hnd.sublist (List.take_sublist _ _)
  · simp only [search]
    by_cases hq : query.trim = ""
    · simp [hq]
    · rw [if_neg hq]
      exact List.length_take_le _ _

/-- C2.  The claim says `getStatistics(level)` returns
`{count: 0, totalArea: 0, averageArea: 0}` whenever the loaded collection has
zero features.  The code only guards the *absent-collection* case: for a
loaded collection with an empty `features` array it computes
`averageArea = totalArea / features.length = 0 / 0 = NaN`.  The spec itself
(§9) calls the unguarded division a latent bug, so this is a bug in the code,
witnessed here by evaluating `getStatistics` on a state whose `provinces`
collection is loaded and empty. -/
theorem getStatistics_empty_collection_nan :
    getStatistics
        ⟨fun l => if l = AdminLevel.provinces then some ⟨[]⟩ else none⟩
        AdminLevel.provinces =
      ⟨0, .fin 0, JSVal.nan⟩ ∧
    getStatistics emptyDM AdminLevel.provinces = ⟨0, .fin 0, JSVal.fin 0⟩ := by
  constructor
  · simp [getStatistics, statAreas, jsDivV, jsDiv]
  · simp [getStatistics, emptyDM]

section LoadLemmas

/-- Every `AdminLevel` value is in the `levels` array. -/
lemma mem_allLevels (l : AdminLevel) : l ∈ allLevels := by
  cases l <;> simp [allLevels]

/-- `data.size === 5` holds exactly when every one of the five levels is
present. -/
lemma isDataLoaded_iff (st : DMState) :
    isDataLoaded st = true ↔ ∀ l, (st.data l).isSome = true := by
  have hlen : allLevels.length = 5 := rfl
  constructor
  · intro h l
    have h5 : loadedLevelCount st = 5 := by
      simpa [isDataLoaded] using h
    have h5' : (allLevels.filter (fun l => (st.data l).isSome)).length = 5 := h5
    have hfil :
        (allLevels.filter (fun l => (st.data l).isSome)) = allLevels :=
      (List.filter_sublist _).eq_of_length (by rw [h5', hlen])
    have := List.filter_eq_self.mp hfil l (mem_allLevels l)
    simpa using this
  · intro h
    have hfil :
        (allLevels.filter (fun l => (st.data l).isSome)) = allLevels :=
      List.filter_eq_self.mpr (fun l _ => by simpa using h l)
    simp [isDataLoaded, loadedLevelCount, hfil, hlen]

end LoadLemmas

/-- C3.  `isDataLoaded()` is true iff all 5 distinct admin levels are in the
collection map; and when a load over a fresh manager has any level fail, the
whole operation rejects, the successfully fetched levels are still
retrievable through `getData` (no rollback), and `isDataLoaded()` is
false. -/
theorem isDataLoaded_five_levels_and_load_failure :
    (∀ st : DMState,
      (isDataLoaded st = true ↔ loadedLevelCount st = 5) ∧
      (isDataLoaded st = true ↔ ∀ l, (getData st l).isSome = true)) ∧
    (∀ (fetches : AdminLevel → Except String FeatureCollection)
        (l₀ : AdminLevel) (e : String), fetches l₀ = .error e →
      (loadGeoJSONData emptyDM fetches).2.isOk = false ∧
      (∀ l d, fetches l = .ok d →
        getData (loadGeoJSONData emptyDM fetches).1 l = some d) ∧
      isDataLoaded (loadGeoJSONData emptyDM fetches).1 = false) := by
  constructor
  · intro st
    exact ⟨by simp [isDataLoaded], isDataLoaded_iff st⟩
  · intro fetches l₀ e h₀
    refine ⟨?_, ?_, ?_⟩
    · cases hfind : allLevels.findSome?
          (fun l => match fetches l with | .error e => some e | .ok _ => none)
        with
      | some e' =>
        simp only [loadGeoJSONData, hfind]
        rfl
      | none =>
        exfalso
        have := List.findSome?_eq_none_iff.mp hfind l₀ (mem_allLevels l₀)
        rw [h₀] at this
        exact Option.noConfusion this
    · intro l d hl
      simp [loadGeoJSONData, getData, hl]
    · rw [Bool.eq_false_iff]
      intro htrue
      have hall := (isDataLoaded_iff _).mp htrue l₀
      simp only [loadGeoJSONData, h₀, emptyDM] at hall
      exact Bool.noConfusion hall

/-- Witness for C3 at a concrete failing load: `provinces` fails, the other
four succeed with empty collections. -/
theorem isDataLoaded_five_levels_and_load_failure_witness :
    (loadGeoJSONData emptyDM (fun l =>
        match l with
        | .provinces => .error "network"
        | _ => .ok ⟨[]⟩)).2.isOk = false ∧
    getData (loadGeoJSONData emptyDM (fun l =>
        match l with
        | .provinces => .error "network"
        | _ => .ok ⟨[]⟩)).1 .districts = some ⟨[]⟩ ∧
    isDataLoaded (loadGeoJSONData emptyDM (fun l =>
        match l with
        | .provinces => .error "network"
        | _ => .ok ⟨[]⟩)).1 = false := by
  obtain ⟨h1, h2, h3⟩ :=
    isDataLoaded_five_levels_and_load_failure.2
      (fun l => match l with
        | .provinces => .error "network"
        | _ => .ok ⟨[]⟩) .provinces "network" rfl
  exact ⟨h1, h2 .districts ⟨[]⟩ rfl, h3⟩

section BoundsLemmas

/-- A `min`-fold never exceeds its start value. -/
lemma foldl_min_le_start : ∀ (xs : List ℚ) (a : ℚ), xs.foldl min a ≤ a := by
  intro xs
  induction xs with
  | nil => intro a; exact le_refl a
  | cons x xs ih =>
    intro a
    exact le_trans (ih (min a x)) (min_le_left a x)

/-- A `max`-fold never drops below its start value. -/
lemma start_le_foldl_max : ∀ (xs : List ℚ) (a : ℚ), a ≤ xs.foldl max a := by
  intro xs
  induction xs with
  | nil => intro a; exact le_refl a
  | cons x xs ih =>
    intro a
    exact le_trans (le_max_left a x) (ih (max a x))

end BoundsLemmas

/-- C7 counterexample.  The claim quantifies over *every* feature, but a
feature whose `coordinates` is the empty array has bounds
`[[+Infinity, +Infinity], [-Infinity, -Infinity]]` and a `NaN` center, and
`min ≤ center` fails (as the JavaScript comparison, which is false on `NaN`;
the latitude minimum `+Infinity` also exceeds the maximum `-Infinity`). -/
theorem bounds_center_within_cex :
    jsLe (getFeatureBounds (.other (.arr []))).1.1
        (getFeatureCenter (.other (.arr []))).1 = false ∧
    jsLe (getFeatureBounds (.other (.arr []))).1.1
        (getFeatureBounds (.other (.arr []))).2.1 = false := ⟨rfl, rfl⟩

/-- C7 (amended: for every feature with at least one extracted coordinate
pair).  `getFeatureBounds` and `getFeatureCenter` satisfy
`min ≤ center ≤ max` on each axis. -/
theorem bounds_center_within (g : Geometry)
    (h : flattenCoords g.tree ≠ []) :
    jsLe (getFeatureBounds g).1.1 (getFeatureCenter g).1 = true ∧
    jsLe (getFeatureCenter g).1 (getFeatureBounds g).2.1 = true ∧
    jsLe (getFeatureBounds g).1.2 (getFeatureCenter g).2 = true ∧
    jsLe (getFeatureCenter g).2 (getFeatureBounds g).2.2 = true := by
  cases hc : flattenCoords g.tree with
  | nil => exact absurd hc h
  | cons c cs =>
    have hlat1 : (cs.map (·.2)).foldl min c.2 ≤ c.2 := foldl_min_le_start _ _
    have hlat2 : c.2 ≤ (cs.map (·.2)).foldl max c.2 := start_le_foldl_max _ _
    have hlng1 : (cs.map (·.1)).foldl min c.1 ≤ c.1 := foldl_min_le_start _ _
    have hlng2 : c.1 ≤ (cs.map (·.1)).foldl max c.1 := start_le_foldl_max _ _
    simp only [getFeatureBounds, getFeatureCenter, hc, List.map_cons,
      jsMinList, jsMaxList, jsAdd, jsHalf, jsLe, decide_eq_true_eq]
    refine ⟨?_, ?_, ?_, ?_⟩ <;> linarith

/-- Witness for C7 (amended) at a one-point geometry. -/
theorem bounds_center_within_witness :
    flattenCoords (Geometry.other (.arr [.num 5, .num 9])).tree ≠ [] ∧
    jsLe (getFeatureBounds (.other (.arr [.num 5, .num 9]))).1.1
        (getFeatureCenter (.other (.arr [.num 5, .num 9]))).1 = true := by
  have h : flattenCoords (Geometry.other (.arr [.num 5, .num 9])).tree ≠ [] := by
    intro hc
    exact List.noConfusion hc
  exact ⟨h, (bounds_center_within (.other (.arr [.num 5, .num 9])) h).1⟩

/-- C10.  For a feature whose geometry coordinates contain no array of
exactly two numbers (so `extractCoordinates` returns the empty list),
`getFeatureBounds` returns `[[Infinity, Infinity], [-Infinity, -Infinity]]`
and `getFeatureCenter` returns `NaN` midpoints (`Infinity + -Infinity =
NaN`); both are total functions in this model — no exception is thrown. -/
theorem degenerate_bounds_infinities (g : Geometry)
    (h : flattenCoords g.tree = []) :
    getFeatureBounds g = ((.posInf, .posInf), (.negInf, .negInf)) ∧
    getFeatureCenter g = (.nan, .nan) ∧
    (getFeatureCenter g).1.isFinite = false ∧
    (getFeatureCenter g).2.isFinite = false := by
  have hb : getFeatureBounds g = ((.posInf, .posInf), (.negInf, .negInf)) := by
    simp [getFeatureBounds, h, jsMinList, jsMaxList]
  have hcen : getFeatureCenter g = (.nan, .nan) := by
    rw [getFeatureCenter, hb]
    rfl
  exact ⟨hb, hcen, by rw [hcen]; rfl, by rw [hcen]; rfl⟩

/-- Witness for C10 at the empty coordinates array. -/
theorem degenerate_bounds_infinities_witness :
    flattenCoords (Geometry.other (.arr [])).tree = [] ∧
    getFeatureBounds (.other (.arr [])) =
      ((.posInf, .posInf), (.negInf, .negInf)) ∧
    getFeatureCenter (.other (.arr [])) = (.nan, .nan) := by
  obtain ⟨h1, h2, _, _⟩ := degenerate_bounds_infinities (.other (.arr [])) rfl
  exact ⟨rfl, h1, h2⟩

/-- C8.  The by-area gradient color: the fixed default `'#3498db'` whenever
the cached minimum equals the cached maximum, and otherwise the hsl color
with hue `240 - 120 * (area - min) / (max - min)`. -/
theorem area_gradient_color (area mn mx : ℚ) :
    (mn = mx → generateAreaGradientColor area mn mx = "#3498db") ∧
    (mn ≠ mx →
      generateAreaGradientColor area mn mx =
        hslString (240 - 120 * (area - mn) / (mx - mn))) := by
  constructor
  · intro h
    simp [generateAreaGradientColor, h]
  · intro h
    have hne : ¬ mx = mn := fun hc => h hc.symm
    have harg : 240 - (area - mn) / (mx - mn) * 120 =
        240 - 120 * (area - mn) / (mx - mn) := by ring
    simp only [generateAreaGradientColor, harg, if_neg hne]

/-- Witness for C8 at `min = max = 3` and at `(area, min, max) = (5, 3, 7)`. -/
theorem area_gradient_color_witness :
    generateAreaGradientColor 5 3 3 = "#3498db" ∧
    generateAreaGradientColor 5 3 7 =
      hslString (240 - 120 * ((5 : ℚ) - 3) / (7 - 3)) :=
  ⟨(area_gradient_color 5 3 3).1 rfl,
   (area_gradient_color 5 3 7).2 (by norm_num)⟩

section CoercionLemmas

/-- `Number(x) || 0` never evaluates to `NaN`: `NaN` is falsy and is
replaced by `0`. -/
lemma orZero_ne_nan (x : JSVal) : orZero x ≠ .nan := by
  cases x <;> simp [orZero]

/-- A `Math.min` fold over non-`NaN` values from a non-`NaN` start stays
non-`NaN`. -/
lemma foldl_jsMin2_ne_nan :
    ∀ (l : List JSVal) (a : JSVal), a ≠ .nan → (∀ x ∈ l, x ≠ .nan) →
      l.foldl jsMin2 a ≠ .nan := by
  intro l
  induction l with
  | nil => intro a ha _; exact ha
  | cons x xs ih =>
    intro a ha hl
    refine ih (jsMin2 a x) ?_ (fun y hy => hl y (List.mem_cons_of_mem x hy))
    have hx : x ≠ .nan := hl x (List.mem_cons_self x xs)
    cases a <;> cases x <;> simp_all [jsMin2]

/-- A `Math.max` fold over non-`NaN` values from a non-`NaN` start stays
non-`NaN`. -/
lemma foldl_jsMax2_ne_nan :
    ∀ (l : List JSVal) (a : JSVal), a ≠ .nan → (∀ x ∈ l, x ≠ .nan) →
      l.foldl jsMax2 a ≠ .nan := by
  intro l
  induction l with
  | nil => intro a ha _; exact ha
  | cons x xs ih =>
    intro a ha hl
    refine ih (jsMax2 a x) ?_ (fun y hy => hl y (List.mem_cons_of_mem x hy))
    have hx : x ≠ .nan := hl x (List.mem_cons_self x xs)
    cases a <;> cases x <;> simp_all [jsMax2]

/-- A `+` fold over finite values from a finite start stays finite. -/
lemma foldl_jsAdd_finite :
    ∀ (l : List JSVal) (a : JSVal), a.isFinite = true →
      (∀ x ∈ l, x.isFinite = true) → (l.foldl jsAdd a).isFinite = true := by
  intro l
  induction l with
  | nil => intro a ha _; exact ha
  | cons x xs ih =>
    intro a ha hl
    refine ih (jsAdd a x) ?_ (fun y hy => hl y (List.mem_cons_of_mem x hy))
    have hx : x.isFinite = true := hl x (List.mem_cons_self x xs)
    cases a <;> cases x <;> simp_all [jsAdd, JSVal.isFinite]

end CoercionLemmas

/-- C9 counterexample.  The claim says `area_sqkm`/`perimeter` are always
coerced to a *finite* number, with absent/non-numeric/malformed values
treated as 0 and `NaN` never propagated into statistics, area ranges or
tooltip data.  Three failures: (i) `Number(true) || 0 = 1`, so a boolean
`area_sqkm` (non-numeric) reaches the tooltip as `1`, not `0`;
(ii) `Number("Infinity") = Infinity` is truthy, so the string `"Infinity"`
reaches the tooltip as `Infinity` — neither finite nor 0; (iii) a collection
whose areas are `"Infinity"` and `"-Infinity"` sums to
`Infinity + -Infinity = NaN` in `getStatistics.totalArea`. -/
theorem numeric_coercion_cex :
    tooltipArea
        ⟨fun k => if k = "area_sqkm" then PropVal.pbool true else .pabsent,
         "{}", .other (.arr [])⟩ = .fin 1 ∧
    JSVal.fin 1 ≠ .fin 0 ∧
    tooltipArea
        ⟨fun k => if k = "area_sqkm" then PropVal.pstr "Infinity" .posInf
          else .pabsent,
         "{}", .other (.arr [])⟩ = .posInf ∧
    (JSVal.posInf).isFinite = false ∧
    (getStatistics
        ⟨fun l =>
          if l = AdminLevel.provinces then
            some ⟨[⟨fun k =>
                      if k = "area_sqkm" then PropVal.pstr "Infinity" .posInf
                      else .pabsent,
                    "{}", .other (.arr [])⟩,
                   ⟨fun k =>
                      if k = "area_sqkm" then
                        PropVal.pstr "-Infinity" .negInf
                      else .pabsent,
                    "{}", .other (.arr [])⟩]⟩
          else none⟩
        AdminLevel.provinces).totalArea = .nan := by
  refine ⟨?_, by simp, ?_, rfl, ?_⟩
  · simp [tooltipArea, jsNumber, orZero]
  · simp [tooltipArea, jsNumber, orZero]
  · simp [getStatistics, statAreas, jsNumber, orZero, jsAdd, List.foldl]

/-- C9 (amended: every use of `area_sqkm`/`perimeter` goes through
`Number(x) || 0`, whose own result is never `NaN`: values coercing to `NaN`
— absent properties, non-numeric strings — are treated as 0, `null` as 0 and
booleans as 0/1, while a string parsing to `±Infinity` passes through as
`±Infinity`, not 0.  Consequently the tooltip fields and the
`Math.min`/`Math.max` area range are never `NaN`, and when every coerced
area is finite the statistics total is finite; opposite infinite areas,
however, sum to a `NaN` statistics total). -/
theorem numeric_coercion_no_nan :
    (∀ v : PropVal, orZero (jsNumber v) ≠ .nan) ∧
    (∀ v : PropVal, jsNumber v = .nan → orZero (jsNumber v) = .fin 0) ∧
    orZero (jsNumber .pabsent) = .fin 0 ∧
    (∀ s, orZero (jsNumber (.pstr s .nan)) = .fin 0) ∧
    orZero (jsNumber .pnull) = .fin 0 ∧
    (∀ b, orZero (jsNumber (.pbool b)) = .fin (if b then 1 else 0)) ∧
    (∀ s p, orZero (jsNumber (.pstr s p)) = orZero p) ∧
    (∀ f : GeoFeature, tooltipArea f ≠ .nan ∧ tooltipPerimeter f ≠ .nan) ∧
    (∀ fs : List GeoFeature,
      (updateAreaRange fs).1 ≠ .nan ∧ (updateAreaRange fs).2 ≠ .nan) ∧
    (∀ fs : List GeoFeature,
      (∀ a ∈ statAreas fs, a.isFinite = true) →
      ((statAreas fs).foldl jsAdd (.fin 0)).isFinite = true) := by
  have helem : ∀ (fs : List GeoFeature) (x : JSVal), x ∈ statAreas fs →
      x ≠ .nan := by
    intro fs x hx
    rw [statAreas] at hx
    obtain ⟨f, -, rfl⟩ := List.mem_map.mp hx
    exact orZero_ne_nan _
  refine ⟨fun v => orZero_ne_nan _, ?_, rfl, fun s => rfl, rfl, fun b => rfl,
    fun s p => rfl, ?_, ?_, ?_⟩
  · intro v h
    rw [h]
    rfl
  · intro f
    exact ⟨orZero_ne_nan _, orZero_ne_nan _⟩
  · intro fs
    constructor
    · exact foldl_jsMin2_ne_nan (statAreas fs) .posInf (by simp) (helem fs)
    · exact foldl_jsMax2_ne_nan (statAreas fs) .negInf (by simp) (helem fs)
  · intro fs hfin
    exact foldl_jsAdd_finite (statAreas fs) (.fin 0) rfl hfin

/-- Witness for C9 (amended): the `NaN`-coercion hypothesis discharged at an
absent property, and the all-finite statistics hypothesis discharged at a
singleton collection with numeric area 3. -/
theorem numeric_coercion_no_nan_witness :
    (jsNumber PropVal.pabsent = .nan ∧
      orZero (jsNumber PropVal.pabsent) = .fin 0) ∧
    ((∀ a ∈ statAreas
        [(⟨fun _ => PropVal.pnum 3, "{}", .other (.arr [])⟩ : GeoFeature)],
        a.isFinite = true) ∧
      ((statAreas
          [(⟨fun _ => PropVal.pnum 3, "{}", .other (.arr [])⟩ : GeoFeature)]
        ).foldl jsAdd (.fin 0)).isFinite = true) := by
  obtain ⟨-, hnan, -, -, -, -, -, -, -, hsum⟩ := numeric_coercion_no_nan
  have hall : ∀ a ∈ statAreas
      [(⟨fun _ => PropVal.pnum 3, "{}", .other (.arr [])⟩ : GeoFeature)],
      a.isFinite = true := by
    intro a ha
    simp [statAreas, jsNumber, orZero] at ha
    rw [ha]
    rfl
  exact ⟨⟨rfl, hnan PropVal.pabsent rfl⟩, hall, hsum _ hall⟩

/-!
## Claim-side centroid formula (implicitly closed ring), for C4
-/

/-- The ring with the claim's implicit closing edge made explicit: the first
vertex appended after the last. -/
def closeRing (ring : GRing) : GRing :=
  match ring with
  | [] => []
  | x :: _ => ring ++ [x]

/-- The claim's centroid formula: the same shoelace accumulation, but over
the ring *treated as implicitly closed*, i.e. including the closing edge from
the last vertex back to the first. -/
def specCentroidClosed (ring : GRing) : JSVal × JSVal :=
  let s := shoelaceSums (closeRing ring)
  let area := s.1 * (1 / 2)
  (jsDiv s.2.2 (6 * area), jsDiv s.2.1 (6 * area))

section CentroidLemmas

/-- Appending a vertex to a nonempty path appends one edge, from the old last
vertex to the new one. -/
lemma zip_tail_append (y : ℚ × ℚ) :
    ∀ (x : ℚ × ℚ) (xs : List (ℚ × ℚ)),
      ((x :: xs) ++ [y]).zip (((x :: xs) ++ [y]).tail) =
        (x :: xs).zip (x :: xs).tail ++
          [((x :: xs).getLast (List.cons_ne_nil x xs), y)] := by
  intro x xs
  induction xs generalizing x with
  | nil => simp
  | cons z zs ih =>
    have hz := ih z
    simp only [List.cons_append, List.tail_cons, List.zip_cons_cons] at hz ⊢
    rw [hz]
    simp [List.getLast]

/-- The closing edge of an explicitly closed ring contributes nothing to the
shoelace sums. -/
lemma shoelaceSums_closeRing (x : ℚ × ℚ) (xs : List (ℚ × ℚ))
    (hlast : (x :: xs).getLast (List.cons_ne_nil x xs) = x) :
    shoelaceSums (closeRing (x :: xs)) = shoelaceSums (x :: xs) := by
  rw [closeRing, shoelaceSums, shoelaceSums, zip_tail_append, hlast,
    List.foldl_append]
  generalize (List.foldl _ (0, 0, 0) ((x :: xs).zip (x :: xs).tail)) = acc
  simp [sub_self]

end CentroidLemmas

/-- C4 counterexample.  The centroid loop iterates only over consecutive
listed edges; no closing edge from the last vertex back to the first is
added.  On the non-closed ring `[(1,0), (3,0), (2,2)]` the code computes
centroid `(2/3, 5/3)` while the claim's implicitly-closed formula gives the
true triangle centroid `(2/3, 2)`. -/
theorem polygon_centroid_no_closing_edge_cex :
    polygonCentroidRaw [(1, 0), (3, 0), (2, 2)] =
      (.fin (2 / 3), .fin (5 / 3)) ∧
    specCentroidClosed [(1, 0), (3, 0), (2, 2)] = (.fin (2 / 3), .fin 2) ∧
    polygonCentroidRaw [(1, 0), (3, 0), (2, 2)] ≠
      specCentroidClosed [(1, 0), (3, 0), (2, 2)] := by
  have h1 : polygonCentroidRaw [(1, 0), (3, 0), (2, 2)] =
      (.fin (2 / 3), .fin (5 / 3)) := by
    simp only [polygonCentroidRaw, shoelaceSums, List.zip, List.tail,
      List.zipWith, List.foldl, jsDiv]
    norm_num
  have h2 : specCentroidClosed [(1, 0), (3, 0), (2, 2)] =
      (.fin (2 / 3), .fin 2) := by
    simp only [specCentroidClosed, closeRing, shoelaceSums, List.cons_append,
      List.nil_append, List.zip, List.tail, List.zipWith, List.foldl, jsDiv]
    norm_num
  refine ⟨h1, h2, ?_⟩
  rw [h1, h2]
  intro hc
  have := congrArg Prod.snd hc
  simp only [JSVal.fin.injEq] at this
  norm_num at this

/-- C4 (amended: the Polygon label centroid is the shoelace formula over the
ring's consecutive listed edges, with no wrap-around edge; for an explicitly
closed ring — last vertex equal to the first, as GeoJSON requires — this
coincides with the claim's implicitly-closed formula, the closing edge
contributing zero). -/
theorem polygon_centroid_formula (ring : GRing) (rest : List GRing) :
    centroidTry (.polygon (ring :: rest)) =
      jsLatLng (polygonCentroidRaw ring) ∧
    (ring.getLast? = ring.head? →
      polygonCentroidRaw ring = specCentroidClosed ring) := by
  refine ⟨rfl, ?_⟩
  intro hcl
  cases ring with
  | nil => rfl
  | cons x xs =>
    have hlast : (x :: xs).getLast (List.cons_ne_nil x xs) = x := by
      have h1 : (x :: xs).getLast? =
          some ((x :: xs).getLast (List.cons_ne_nil x xs)) :=
        List.getLast?_eq_getLast _ _
      rw [hcl] at h1
      simpa using h1.symm
    rw [polygonCentroidRaw, specCentroidClosed,
      shoelaceSums_closeRing x xs hlast]

/-- Witness for C4 (amended) at the explicitly closed unit square. -/
theorem polygon_centroid_formula_witness :
    ([(0, 0), (1, 0), (1, 1), (0, 1), (0, 0)] : GRing).getLast? =
      ([(0, 0), (1, 0), (1, 1), (0, 1), (0, 0)] : GRing).head? ∧
    polygonCentroidRaw [(0, 0), (1, 0), (1, 1), (0, 1), (0, 0)] =
      specCentroidClosed [(0, 0), (1, 0), (1, 1), (0, 1), (0, 0)] := by
  refine ⟨rfl, ?_⟩
  exact (polygon_centroid_formula
    [(0, 0), (1, 0), (1, 1), (0, 1), (0, 0)] []).2 rfl

/-- C6 counterexample.  The fallback to the bounding-box midpoint happens
only when `L.latLng` throws on a `NaN` coordinate.  (i) For the zero-shoelace
ring `[(1,1), (2,3), (3,4)]` both weighted sums are nonzero, so the division
by zero produces `-Infinity` coordinates: the label is placed at
`(-Infinity, -Infinity)`, not at the bounding-box midpoint `(5/2, 2)` — an
Infinity coordinate the claim says is never produced.  (ii) A 2-vertex ring
(fewer than 3 effective vertices) with a nonzero cross product gets a finite
computed centroid `(1/3, 1/3)`, not the bounding-box midpoint `(1/2, 1/2)`. -/
theorem degenerate_centroid_cex :
    labelPosition (.polygon [[(1, 1), (2, 3), (3, 4)]]) =
      (.negInf, .negInf) ∧
    bboxCenter (.polygon [[(1, 1), (2, 3), (3, 4)]]) =
      (.fin (5 / 2), .fin 2) ∧
    (JSVal.negInf).isFinite = false ∧
    labelPosition (.polygon [[(1, 0), (0, 1)]]) =
      (.fin (1 / 3), .fin (1 / 3)) ∧
    bboxCenter (.polygon [[(1, 0), (0, 1)]]) =
      (.fin (1 / 2), .fin (1 / 2)) := by
  refine ⟨?_, ?_, rfl, ?_, ?_⟩
  · have hc : polygonCentroidRaw [(1, 1), (2, 3), (3, 4)] =
        (.negInf, .negInf) := by
      simp only [polygonCentroidRaw, shoelaceSums, List.zip, List.tail,
        List.zipWith, List.foldl, jsDiv]
      norm_num
    rw [labelPosition,
      show centroidTry (.polygon [[(1, 1), (2, 3), (3, 4)]]) =
        jsLatLng (polygonCentroidRaw [(1, 1), (2, 3), (3, 4)]) from rfl,
      hc]
    rfl
  · simp only [bboxCenter, getFeatureCenter, getFeatureBounds, Geometry.tree,
      flattenCoords, flattenEach, List.map_cons, List.map_nil,
      List.append_nil, List.nil_append, List.cons_append, jsMinList,
      jsMaxList, List.foldl, jsAdd, jsHalf]
    norm_num
  · have hc : polygonCentroidRaw [(1, 0), (0, 1)] =
        (.fin (1 / 3), .fin (1 / 3)) := by
      simp only [polygonCentroidRaw, shoelaceSums, List.zip, List.tail,
        List.zipWith, List.foldl, jsDiv]
      norm_num
    rw [labelPosition,
      show centroidTry (.polygon [[(1, 0), (0, 1)]]) =
        jsLatLng (polygonCentroidRaw [(1, 0), (0, 1)]) from rfl,
      hc]
    rfl
  · simp only [bboxCenter, getFeatureCenter, getFeatureBounds, Geometry.tree,
      flattenCoords, flattenEach, List.map_cons, List.map_nil,
      List.append_nil, List.nil_append, List.cons_append, jsMinList,
      jsMaxList, List.foldl, jsAdd, jsHalf]
    norm_num

/-- C6 (amended: the Polygon label computation is total — exceptions from the
centroid block are caught — and falls back to the bounding-box midpoint
exactly when the ring is missing or the shoelace division yields `NaN` in
some coordinate, i.e. zero signed area with the corresponding weighted sum
also zero; a zero-area ring whose weighted sums are both nonzero instead
yields `±Infinity` label coordinates with no fallback). -/
theorem degenerate_centroid_fallback (rings : GPoly) :
    (rings = [] →
      labelPosition (.polygon rings) = bboxCenter (.polygon rings)) ∧
    (∀ r rest, rings = r :: rest →
      ((shoelaceSums r).1 = 0 ∧
          ((shoelaceSums r).2.1 = 0 ∨ (shoelaceSums r).2.2 = 0) →
        labelPosition (.polygon rings) = bboxCenter (.polygon rings)) ∧
      ((shoelaceSums r).1 = 0 ∧ (shoelaceSums r).2.1 ≠ 0 ∧
          (shoelaceSums r).2.2 ≠ 0 →
        labelPosition (.polygon rings) =
          (jsDiv (shoelaceSums r).2.2 0, jsDiv (shoelaceSums r).2.1 0) ∧
        (labelPosition (.polygon rings)).1.isFinite = false ∧
        (labelPosition (.polygon rings)).2.isFinite = false)) := by
  constructor
  · intro h
    subst h
    rfl
  · intro r rest hr
    subst hr
    have harea : 6 * ((shoelaceSums r).1 * (1 / 2)) = 0 ↔
        (shoelaceSums r).1 = 0 := by
      constructor
      · intro h; linarith
      · intro h; rw [h]; ring
    constructor
    · rintro ⟨hs, hcxy⟩
      have h6 : 6 * ((shoelaceSums r).1 * (1 / 2)) = 0 := harea.mpr hs
      have hnan : polygonCentroidRaw r =
          (jsDiv (shoelaceSums r).2.2 0, jsDiv (shoelaceSums r).2.1 0) := by
        rw [polygonCentroidRaw]
        rw [h6]
      rcases hcxy with hcx | hcy
      · -- centroidLng sum is zero: the longitude is NaN
        have : jsDiv (shoelaceSums r).2.1 0 = .nan := by
          simp [jsDiv, hcx]
        simp [labelPosition, centroidTry, hnan, jsLatLng, this]
      · -- centroidLat sum is zero: the latitude is NaN
        have : jsDiv (shoelaceSums r).2.2 0 = .nan := by
          simp [jsDiv, hcy]
        simp [labelPosition, centroidTry, hnan, jsLatLng, this]
    · rintro ⟨hs, hcx, hcy⟩
      have h6 : 6 * ((shoelaceSums r).1 * (1 / 2)) = 0 := harea.mpr hs
      have hnan : polygonCentroidRaw r =
          (jsDiv (shoelaceSums r).2.2 0, jsDiv (shoelaceSums r).2.1 0) := by
        rw [polygonCentroidRaw]
        rw [h6]
      have hlat : jsDiv (shoelaceSums r).2.2 0 ≠ .nan := by
        rcases lt_trichotomy ((shoelaceSums r).2.2) 0 with h | h | h
        · simp [jsDiv, h, not_lt.mpr (le_of_lt h)]
        · exact absurd h hcy
        · simp [jsDiv, h]
      have hlng : jsDiv (shoelaceSums r).2.1 0 ≠ .nan := by
        rcases lt_trichotomy ((shoelaceSums r).2.1) 0 with h | h | h
        · simp [jsDiv, h, not_lt.mpr (le_of_lt h)]
        · exact absurd h hcx
        · simp [jsDiv, h]
      have hpos : labelPosition (.polygon (r :: rest)) =
          (jsDiv (shoelaceSums r).2.2 0, jsDiv (shoelaceSums r).2.1 0) := by
        simp [labelPosition, centroidTry, hnan, jsLatLng, hlat, hlng]
      refine ⟨hpos, ?_, ?_⟩
      · rw [hpos]
        rcases lt_trichotomy ((shoelaceSums r).2.2) 0 with h | h | h
        · simp [jsDiv, h, not_lt.mpr (le_of_lt h), JSVal.isFinite]
        · exact absurd h hcy
        · simp [jsDiv, h, not_lt.mpr (le_of_lt h), JSVal.isFinite]
      · rw [hpos]
        rcases lt_trichotomy ((shoelaceSums r).2.1) 0 with h | h | h
        · simp [jsDiv, h, not_lt.mpr (le_of_lt h), JSVal.isFinite]
        · exact absurd h hcx
        · simp [jsDiv, h, not_lt.mpr (le_of_lt h), JSVal.isFinite]

/-- Witness for C6 (amended): the empty ring list, a zero-cross 2-vertex ring
(NaN → fallback), and the zero-area ring with nonzero sums (−Infinity, no
fallback). -/
theorem degenerate_centroid_fallback_witness :
    labelPosition (.polygon []) = bboxCenter (.polygon []) ∧
    labelPosition (.polygon [[(0, 0), (1, 1)]]) =
      bboxCenter (.polygon [[(0, 0), (1, 1)]]) ∧
    labelPosition (.polygon [[(1, 1), (2, 3), (3, 4)]]) =
      (jsDiv (shoelaceSums [(1, 1), (2, 3), (3, 4)]).2.2 0,
       jsDiv (shoelaceSums [(1, 1), (2, 3), (3, 4)]).2.1 0) := by
  refine ⟨(degenerate_centroid_fallback []).1 rfl, ?_, ?_⟩
  · refine (((degenerate_centroid_fallback [[(0, 0), (1, 1)]]).2
      [(0, 0), (1, 1)] [] rfl).1 ?_)
    constructor
    · simp only [shoelaceSums, List.zip, List.tail, List.zipWith, List.foldl]
      norm_num
    · left
      simp only [shoelaceSums, List.zip, List.tail, List.zipWith, List.foldl]
      norm_num
  · refine (((degenerate_centroid_fallback [[(1, 1), (2, 3), (3, 4)]]).2
      [(1, 1), (2, 3), (3, 4)] [] rfl).2 ?_).1
    refine ⟨?_, ?_, ?_⟩ <;>
      · simp only [shoelaceSums, List.zip, List.tail, List.zipWith,
          List.foldl]
        norm_num

section SelectLemmas

/-- The cyclic shoelace area is nonnegative (an absolute value halved). -/
lemma cyclicShoeArea_nonneg (ring : GRing) : 0 ≤ cyclicShoeArea ring := by
  rw [cyclicShoeArea]
  positivity

/-- A selection step never decreases the running maximum. -/
lemma selectStep_snd_le (acc : GPoly × ℚ) (p : GPoly) :
    acc.2 ≤ (selectStep acc p).2 := by
  by_cases h : cyclicShoeArea (p.headD []) > acc.2
  · simp only [selectStep, if_pos h]
    exact le_of_lt h
  · simp only [selectStep, if_neg h]
    exact le_refl _

/-- The running maximum only grows along the selection fold. -/
lemma foldl_selectStep_mono :
    ∀ (l : List GPoly) (acc : GPoly × ℚ),
      acc.2 ≤ (l.foldl selectStep acc).2 := by
  intro l
  induction l with
  | nil => intro acc; exact le_refl _
  | cons p l ih =>
    intro acc
    exact le_trans (selectStep_snd_le acc p) (ih (selectStep acc p))

/-- Every processed polygon's area is bounded by the final running
maximum. -/
lemma foldl_selectStep_le :
    ∀ (l : List GPoly) (acc : GPoly × ℚ) (p : GPoly), p ∈ l →
      cyclicShoeArea (p.headD []) ≤ (l.foldl selectStep acc).2 := by
  intro l
  induction l with
  | nil => intro acc p hp; exact absurd hp (List.not_mem_nil p)
  | cons q l ih =>
    intro acc p hp
    rcases List.mem_cons.mp hp with rfl | hp
    · refine le_trans ?_ (foldl_selectStep_mono l (selectStep acc p))
      by_cases h : cyclicShoeArea (p.headD []) > acc.2
      · simp only [selectStep, if_pos h]
        exact le_refl _
      · simp only [selectStep, if_neg h]
        exact le_of_not_lt h
    · exact ih (selectStep acc q) p hp

/-- The final running maximum is the selected polygon's area, unless the fold
never updated the accumulator at all. -/
lemma foldl_selectStep_attains :
    ∀ (l : List GPoly) (acc : GPoly × ℚ),
      (l.foldl selectStep acc).2 =
          cyclicShoeArea ((l.foldl selectStep acc).1.headD []) ∨
        l.foldl selectStep acc = acc := by
  intro l
  induction l with
  | nil => intro acc; exact Or.inr rfl
  | cons p l ih =>
    intro acc
    rcases ih (selectStep acc p) with h | h
    · exact Or.inl h
    · rw [List.foldl_cons, h]
      by_cases hc : cyclicShoeArea (p.headD []) > acc.2
      · simp only [selectStep, if_pos hc]
        exact Or.inl trivial
      · simp only [selectStep, if_neg hc]
        exact Or.inr trivial

end SelectLemmas

/-- C5.  For a MultiPolygon, the selection loop picks a sub-polygon whose
outer ring has the (cyclic) shoelace absolute area at least that of every
sub-polygon, and the label centroid is that sub-polygon's outer-ring
centroid computed with the same shoelace formula; in particular, between
outer rings of areas 10 and 1000 the area-1000 sub-polygon is selected. -/
theorem multiPolygon_largest_selected :
    (∀ (polys : List GPoly) (p0 : GPoly) (rest : List GPoly),
      polys = p0 :: rest → (∀ p ∈ polys, p ≠ []) →
      multiCentroidTry polys =
        jsLatLng (polygonCentroidRaw ((multiSelected polys).headD [])) ∧
      ∀ p ∈ polys,
        cyclicShoeArea (p.headD []) ≤
          cyclicShoeArea ((multiSelected polys).headD [])) ∧
    multiSelected
        [[[(0, 0), (5, 0), (5, 2), (0, 2), (0, 0)]],
         [[(0, 0), (50, 0), (50, 20), (0, 20), (0, 0)]]] =
      [[(0, 0), (50, 0), (50, 20), (0, 20), (0, 0)]] := by
  constructor
  · intro polys p0 rest hpolys hnil
    subst hpolys
    have hall : (p0 :: rest).all (fun p => ¬ p.isEmpty) = true := by
      rw [List.all_eq_true]
      intro p hp
      simp [List.isEmpty_iff, hnil p hp]
    constructor
    · simp only [multiCentroidTry, hall, if_true]
    · intro p hp
      have hsel : multiSelected (p0 :: rest) =
          ((p0 :: rest).foldl selectStep (p0, 0)).1 := by
        simp [multiSelected]
      have hle : cyclicShoeArea (p.headD []) ≤
          ((p0 :: rest).foldl selectStep (p0, 0)).2 :=
        foldl_selectStep_le (p0 :: rest) (p0, 0) p hp
      rcases foldl_selectStep_attains (p0 :: rest) (p0, 0) with h | h
      · rw [hsel, ← h]
        exact hle
      · rw [hsel, h]
        have h2 : ((p0 :: rest).foldl selectStep (p0, 0)).2 = 0 := by
          rw [h]
        rw [h2] at hle
        exact le_trans hle (cyclicShoeArea_nonneg _)
  · have h10 : cyclicShoeArea [(0, 0), (5, 0), (5, 2), (0, 2), (0, 0)] =
        10 := by
      rw [cyclicShoeArea]
      simp only [List.zip, List.zipWith, List.drop, List.take, List.foldl,
        List.cons_append, List.nil_append]
      rw [show ((0 : ℚ) + (0 * 0 - 5 * 0) + (5 * 2 - 5 * 0) +
          (5 * 2 - 0 * 2) + (0 * 0 - 0 * 2) + (0 * 0 - 0 * 0)) = 20 by
        norm_num]
      rw [show |(20 : ℚ)| = 20 from abs_of_nonneg (by norm_num)]
      norm_num
    have h1000 : cyclicShoeArea
        [(0, 0), (50, 0), (50, 20), (0, 20), (0, 0)] = 1000 := by
      rw [cyclicShoeArea]
      simp only [List.zip, List.zipWith, List.drop, List.take, List.foldl,
        List.cons_append, List.nil_append]
      rw [show ((0 : ℚ) + (0 * 0 - 50 * 0) + (50 * 20 - 50 * 0) +
          (50 * 20 - 0 * 20) + (0 * 0 - 0 * 20) + (0 * 0 - 0 * 0)) = 2000 by
        norm_num]
      rw [show |(2000 : ℚ)| = 2000 from abs_of_nonneg (by norm_num)]
      norm_num
    rw [multiSelected]
    simp only [List.headD, List.foldl, selectStep, h10, h1000]
    norm_num

/-- Witness for C5 at the two-rectangle MultiPolygon with outer-ring areas 10
and 1000. -/
theorem multiPolygon_largest_selected_witness :
    multiCentroidTry
        [[[(0, 0), (5, 0), (5, 2), (0, 2), (0, 0)]],
         [[(0, 0), (50, 0), (50, 20), (0, 20), (0, 0)]]] =
      jsLatLng (polygonCentroidRaw
        ((multiSelected
          [[[(0, 0), (5, 0), (5, 2), (0, 2), (0, 0)]],
           [[(0, 0), (50, 0), (50, 20), (0, 20), (0, 0)]]]).headD [])) ∧
    cyclicShoeArea
        (([[(0, 0), (5, 0), (5, 2), (0, 2), (0, 0)]] : GPoly).headD []) ≤
      cyclicShoeArea
        ((multiSelected
          [[[(0, 0), (5, 0), (5, 2), (0, 2), (0, 0)]],
           [[(0, 0), (50, 0), (50, 20), (0, 20), (0, 0)]]]).headD []) := by
  obtain ⟨h1, h2⟩ := multiPolygon_largest_selected.1
    [[[(0, 0), (5, 0), (5, 2), (0, 2), (0, 0)]],
     [[(0, 0), (50, 0), (50, 20), (0, 20), (0, 0)]]]
    [[(0, 0), (5, 0), (5, 2), (0, 2), (0, 0)]]
    [[[(0, 0), (50, 0), (50, 20), (0, 20), (0, 0)]]]
    rfl
    (by
      intro p hp
      rcases List.mem_cons.mp hp with rfl | hp
      · simp
      · rcases List.mem_cons.mp hp with rfl | hp
        · simp
        · exact absurd hp (List.not_mem_nil p))
  exact ⟨h1, h2 _ (by simp)⟩
